import Mathlib

/-!
Verification of the attendance-tracking application (`app.py`).

The application keeps a SQLite database with two tables, `employees` and
`attendance_overrides`, and exposes the operations `set_libur` (upsert a
day-off override), `clear_override` (delete overrides), `build_report`
(per-employee present/absent day counts over an inclusive date range),
`month_range` / `year_range` (calendar boundary helpers), plus the UI-level
employee insertion and active-flag update.  This file shallowly embeds the
database state and those operations and proves the specified properties.
-/

/-- Calendar date, mirroring Python `datetime.date` (year, month, day). -/
structure Date where
  year : Nat
  month : Nat
  day : Nat
deriving DecidableEq, Repr

/-- Lexicographic order on dates.  ISO-8601 date strings (`YYYY-MM-DD`, as
stored in the `work_date` TEXT column) compare bytewise exactly like this
lexicographic order on (year, month, day), so SQL `BETWEEN` on the stored
strings is embedded by this comparison. -/
def dateLe (a b : Date) : Bool :=
  decide (a.year < b.year) ||
    (decide (a.year = b.year) &&
      (decide (a.month < b.month) ||
        (decide (a.month = b.month) && decide (a.day ≤ b.day))))

/-- Gregorian leap-year rule, as implemented by Python `datetime`. -/
def isLeap (y : Nat) : Bool :=
  (decide (y % 4 = 0) && !(decide (y % 100 = 0))) || decide (y % 400 = 0)

/-- Number of days in a month of a given year (Python `calendar` rules). -/
def daysInMonth (y m : Nat) : Nat :=
  if m = 2 then (if isLeap y then 29 else 28)
  else if m = 4 ∨ m = 6 ∨ m = 9 ∨ m = 11 then 30
  else 31

/-- Days in the months of year `y` strictly before month `m`. -/
def daysBeforeMonth (y m : Nat) : Nat :=
  (List.range (m - 1)).foldl (fun acc k => acc + daysInMonth y (k + 1)) 0

/-- Proleptic Gregorian ordinal of a date: `Date(1,1,1)` has ordinal 1,
matching Python `date.toordinal`.  Python's `(end - start).days` equals
`toOrdinal end - toOrdinal start`. -/
def toOrdinal (d : Date) : Nat :=
  365 * (d.year - 1) + (d.year - 1) / 4 + (d.year - 1) / 400 - (d.year - 1) / 100
    + daysBeforeMonth d.year d.month + d.day

/-- `total_days = (end_date - start_date).days + 1` from `build_report`. -/
def totalDays (s e : Date) : Int :=
  (toOrdinal e : Int) - (toOrdinal s : Int) + 1

/-- One calendar day earlier, embedding `d - pd.Timedelta(days=1)` on valid
dates. -/
def predDate (d : Date) : Date :=
  if 1 < d.day then { d with day := d.day - 1 }
  else if 1 < d.month then
    { d with month := d.month - 1, day := daysInMonth d.year (d.month - 1) }
  else { year := d.year - 1, month := 12, day := 31 }

/-- `month_range(year, month)` from `app.py`: first day of the month, and
one day before the first day of the following month (rolling the year for
December). -/
def month_range (year month : Nat) : Date × Date :=
  let start : Date := ⟨year, month, 1⟩
  if month = 12 then (start, predDate ⟨year + 1, 1, 1⟩)
  else (start, predDate ⟨year, month + 1, 1⟩)

/-- `year_range(year)` from `app.py`. -/
def year_range (year : Nat) : Date × Date :=
  (⟨year, 1, 1⟩, ⟨year, 12, 31⟩)

/-- A row of the `employees` table. -/
structure Employee where
  id : Nat
  full_name : String
  employee_code : Option String
  is_active : Nat
  created_at : String
deriving DecidableEq, Repr

/-- A row of the `attendance_overrides` table. -/
structure OverrideRow where
  id : Nat
  employee_id : Nat
  work_date : Date
  status : String
  notes : String
  created_at : String
deriving DecidableEq, Repr

/-- The database state: the two tables plus the AUTOINCREMENT sequences
(SQLite AUTOINCREMENT never reuses ids, so the counters only grow). -/
structure DB where
  employees : List Employee
  overrides : List OverrideRow
  emp_seq : Nat
  ovr_seq : Nat
deriving DecidableEq, Repr

/-- The freshly initialised database produced by `init_db`. -/
def emptyDB : DB := { employees := [], overrides := [], emp_seq := 0, ovr_seq := 0 }

/-- The `(employee_id, work_date)` key of an override row, the key of the
table's `UNIQUE(employee_id, work_date)` constraint. -/
def pairKey (r : OverrideRow) : Nat × Date := (r.employee_id, r.work_date)

/-- SQL predicate `employee_id = ? AND work_date = ?`. -/
def matchPair (eid : Nat) (d : Date) (r : OverrideRow) : Bool :=
  decide (r.employee_id = eid ∧ r.work_date = d)

/-- Whether an override row for the `(eid, d)` pair exists (triggering the
`ON CONFLICT(employee_id, work_date)` clause of `set_libur`). -/
def hasPair (ovs : List OverrideRow) (eid : Nat) (d : Date) : Bool :=
  ovs.any (matchPair eid d)

/-- The `DO UPDATE SET status='LIBUR', notes=excluded.notes` action of
`set_libur`'s upsert: only `status` and `notes` are written. -/
def updOverride (eid : Nat) (d : Date) (n : String) (r : OverrideRow) : OverrideRow :=
  if r.employee_id = eid ∧ r.work_date = d then { r with status := "LIBUR", notes := n } else r

/-- Whether an employee row with the given id exists (the FOREIGN KEY
check, active because `get_conn` sets `PRAGMA foreign_keys = ON`). -/
def empExists (db : DB) (eid : Nat) : Bool :=
  db.employees.any (fun x => decide (x.id = eid))

/-- One iteration of the `set_libur` loop: the upsert
`INSERT ... ON CONFLICT(employee_id, work_date) DO UPDATE` for one employee.
On conflict only `status` and `notes` are updated; otherwise a fresh row is
inserted, which fails with an IntegrityError if the referenced employee does
not exist. -/
def setLibur1 (db : DB) (eid : Nat) (d : Date) (n : String) (now : String) :
    Except String DB :=
  if hasPair db.overrides eid d then
    .ok { db with overrides := db.overrides.map (updOverride eid d n) }
  else if empExists db eid then
    .ok { db with
          overrides := db.overrides ++
            [{ id := db.ovr_seq + 1, employee_id := eid, work_date := d,
               status := "LIBUR", notes := n, created_at := now }],
          ovr_seq := db.ovr_seq + 1 }
  else .error "FOREIGN KEY constraint failed"

/-- `set_libur(employee_ids, work_date, notes)`: the upsert loop.  Each
iteration commits on its own connection; an IntegrityError aborts the rest
of the loop. -/
def set_libur (db : DB) (eids : List Nat) (d : Date) (n : String) (now : String) :
    Except String DB :=
  match eids with
  | [] => .ok db
  | eid :: rest =>
    match setLibur1 db eid d n now with
    | .ok db1 => set_libur db1 rest d n now
    | .error e => .error e

/-- One iteration of the `clear_override` loop:
`DELETE FROM attendance_overrides WHERE employee_id = ? AND work_date = ?`. -/
def clearOverride1 (db : DB) (eid : Nat) (d : Date) : DB :=
  { db with overrides := db.overrides.filter (fun r => !(matchPair eid d r)) }

/-- `clear_override(employee_ids, work_date)`: the delete loop. -/
def clear_override (db : DB) (eids : List Nat) (d : Date) : DB :=
  eids.foldl (fun s eid => clearOverride1 s eid d) db

/-- Whether some employee already uses code `c` (the
`employee_code TEXT UNIQUE` constraint; SQL NULLs never conflict). -/
def codeInUse (db : DB) (c : String) : Bool :=
  db.employees.any (fun x => decide (x.employee_code = some c))

/-- The `INSERT INTO employees(full_name, employee_code, is_active,
created_at) VALUES(?, ?, 1, ?)` executed by the add-employee button; it
raises `sqlite3.IntegrityError` exactly on a `employee_code` uniqueness
violation. -/
def addEmployee (db : DB) (name : String) (code : Option String) (now : String) :
    Except String DB :=
  if (match code with | some c => codeInUse db c | none => false) then
    .error "UNIQUE constraint failed: employees.employee_code"
  else
    .ok { db with
          employees := db.employees ++
            [{ id := db.emp_seq + 1, full_name := name, employee_code := code,
               is_active := 1, created_at := now }],
          emp_seq := db.emp_seq + 1 }

/-- The UI transformation `employee_code.strip() or None` applied to the
code text field before the insert. -/
def codeOfInput (s : String) : Option String :=
  if s.trim = "" then none else some s.trim

/-- `UPDATE employees SET is_active = ? WHERE id = ?`. -/
def setActive (db : DB) (eid : Nat) (flag : Nat) : DB :=
  { db with employees :=
      db.employees.map (fun x => if x.id = eid then { x with is_active := flag } else x) }

/-- `DELETE FROM employees WHERE id = ?` together with the schema's
`FOREIGN KEY(employee_id) REFERENCES employees(id) ON DELETE CASCADE`
(enabled by `PRAGMA foreign_keys = ON`): the employee row and every
override row referencing it are removed. -/
def deleteEmployee (db : DB) (eid : Nat) : DB :=
  { db with
    employees := db.employees.filter (fun x => !(decide (x.id = eid))),
    overrides := db.overrides.filter (fun r => !(decide (r.employee_id = eid))) }

/-- Insertion keeping a list sorted by a `String` key (ascending). -/
def insertByKey {α : Type} (key : α → String) (a : α) : List α → List α
  | [] => [a]
  | x :: xs => if key a ≤ key x then a :: x :: xs else x :: insertByKey key a xs

/-- Sort by a `String` key, embedding both SQL `ORDER BY full_name` and
pandas `sort_values("full_name")`. -/
def sortByKey {α : Type} (key : α → String) (l : List α) : List α :=
  l.foldr (insertByKey key) []

/-- `get_active_employees()`: `SELECT ... WHERE is_active = 1 ORDER BY
full_name`. -/
def get_active_employees (db : DB) : List Employee :=
  sortByKey (fun x => x.full_name) (db.employees.filter (fun x => decide (x.is_active = 1)))

/-- SQL predicate `work_date BETWEEN ? AND ?` of the report query. -/
def inRange (s e : Date) (r : OverrideRow) : Bool :=
  dateLe s r.work_date && dateLe r.work_date e

/-- The aggregation `SELECT employee_id, COUNT(*) AS libur_days ... WHERE
work_date BETWEEN ? AND ? GROUP BY employee_id`: one `(employee_id, count)`
pair per employee id appearing among the in-range rows. -/
def groupCounts (ovs : List OverrideRow) (s e : Date) : List (Nat × Nat) :=
  let xs := ovs.filter (inRange s e)
  ((xs.map (fun r => r.employee_id)).dedup).map
    (fun i => (i, (xs.filter (fun r => decide (r.employee_id = i))).length))

/-- A row of the report DataFrame
`[full_name, employee_code, total_days, masuk_days, libur_days]`. -/
structure ReportRow where
  full_name : String
  employee_code : Option String
  total_days : Int
  masuk_days : Int
  libur_days : Nat
deriving DecidableEq, Repr

/-- The row `build_report` produces for one active employee: the left merge
on `id = employee_id` followed by `fillna(0)` and
`masuk_days = total_days - libur_days`. -/
def mkRow (db : DB) (s e : Date) (emp : Employee) : ReportRow :=
  let libur := (List.lookup emp.id (groupCounts db.overrides s e)).getD 0
  let total := totalDays s e
  { full_name := emp.full_name, employee_code := emp.employee_code,
    total_days := total, masuk_days := total - (libur : Int), libur_days := libur }

/-- `build_report(start_date, end_date)`: empty when there is no active
employee, else one row per active employee, sorted by `full_name`
(`rep.sort_values("full_name")`). -/
def build_report (db : DB) (s e : Date) : List ReportRow :=
  if (get_active_employees db).isEmpty then []
  else sortByKey (fun r => r.full_name) ((get_active_employees db).map (mkRow db s e))

/-- Direct per-employee count of override rows whose work date lies in the
inclusive range: the specification-side description of `libur_days`. -/
def countOverridesInRange (ovs : List OverrideRow) (eid : Nat) (s e : Date) : Nat :=
  ((ovs.filter (inRange s e)).filter (fun r => decide (r.employee_id = eid))).length

/-- Database states reachable through the application's operations,
starting from the freshly initialised database. -/
inductive Reachable : DB → Prop where
  | init : Reachable emptyDB
  | addEmp {db db1 : DB} {name now : String} {code : Option String} :
      Reachable db → addEmployee db name code now = .ok db1 → Reachable db1
  | updActive {db : DB} (eid flag : Nat) :
      Reachable db → Reachable (setActive db eid flag)
  | setLib {db db1 : DB} {eid : Nat} {d : Date} {n now : String} :
      Reachable db → setLibur1 db eid d n now = .ok db1 → Reachable db1
  | clearOvr {db : DB} (eid : Nat) (d : Date) :
      Reachable db → Reachable (clearOverride1 db eid d)
  | delEmp {db : DB} (eid : Nat) :
      Reachable db → Reachable (deleteEmployee db eid)

/-! ### Sorting lemmas -/

theorem sortByKey_cons {α : Type} (key : α → String) (x : α) (xs : List α) :
    sortByKey key (x :: xs) = insertByKey key x (sortByKey key xs) := rfl

theorem mem_insertByKey {α : Type} (key : α → String) (a b : α) (l : List α) :
    b ∈ insertByKey key a l ↔ b = a ∨ b ∈ l := by
  induction l with
  | nil => simp [insertByKey]
  | cons x xs ih =>
    simp only [insertByKey]
    split
    · simp
    · simp only [List.mem_cons, ih]
      tauto

theorem mem_sortByKey {α : Type} (key : α → String) (b : α) (l : List α) :
    b ∈ sortByKey key l ↔ b ∈ l := by
  induction l with
  | nil => simp [sortByKey]
  | cons x xs ih =>
    rw [sortByKey_cons, mem_insertByKey, ih, List.mem_cons]

theorem pairwise_insertByKey {α : Type} (key : α → String) (a : α) (l : List α)
    (h : l.Pairwise (fun x y => key x ≤ key y)) :
    (insertByKey key a l).Pairwise (fun x y => key x ≤ key y) := by
  induction l with
  | nil => simp [insertByKey]
  | cons x xs ih =>
    rw [List.pairwise_cons] at h
    simp only [insertByKey]
    split
    · rename_i hle
      refine List.pairwise_cons.mpr ⟨?_, List.pairwise_cons.mpr h⟩
      intro b hb
      rcases List.mem_cons.mp hb with rfl | hb
      · exact hle
      · exact le_trans hle (h.1 b hb)
    · rename_i hgt
      refine List.pairwise_cons.mpr ⟨?_, ih h.2⟩
      intro b hb
      rcases (mem_insertByKey key a b xs).mp hb with rfl | hb
      · exact le_of_not_le hgt
      · exact h.1 b hb

theorem pairwise_sortByKey {α : Type} (key : α → String) (l : List α) :
    (sortByKey key l).Pairwise (fun x y => key x ≤ key y) := by
  induction l with
  | nil => simp [sortByKey]
  | cons x xs ih => rw [sortByKey_cons]; exact pairwise_insertByKey key x _ ih

/-! ### Group-by / lookup lemmas -/

theorem lookup_keyed_map (f : Nat → Nat) (ids : List Nat) (a : Nat) :
    List.lookup a (ids.map (fun i => (i, f i))) =
      if a ∈ ids then some (f a) else none := by
  induction ids with
  | nil => simp
  | cons i rest ih =>
    by_cases hai : a = i
    · subst hai
      simp [List.lookup]
    · simp only [List.map_cons, List.lookup, beq_eq_false_iff_ne.mpr hai, List.mem_cons]
      simp [hai, ih]

/-- The merged-and-filled `libur_days` column equals the direct per-employee
count of in-range override rows. -/
theorem libur_eq_count (db : DB) (s e : Date) (emp : Employee) :
    (mkRow db s e emp).libur_days = countOverridesInRange db.overrides emp.id s e := by
  show (List.lookup emp.id (groupCounts db.overrides s e)).getD 0 = _
  unfold groupCounts countOverridesInRange
  rw [lookup_keyed_map]
  by_cases h : emp.id ∈ ((db.overrides.filter (inRange s e)).map (fun r => r.employee_id)).dedup
  · simp [h]
  · rw [if_neg h, Option.getD_none]
    rw [List.mem_dedup] at h
    have hnil : (db.overrides.filter (inRange s e)).filter
        (fun r => decide (r.employee_id = emp.id)) = [] := by
      rw [List.filter_eq_nil_iff]
      intro r hr hc
      rw [decide_eq_true_eq] at hc
      exact h (hc ▸ List.mem_map_of_mem (fun r => r.employee_id) hr)
    rw [hnil]
    rfl

/-! ### Pair-key lemmas -/

theorem pairKey_updOverride (eid : Nat) (d : Date) (n : String) (r : OverrideRow) :
    pairKey (updOverride eid d n r) = pairKey r := by
  unfold updOverride pairKey
  split <;> rfl

theorem matchPair_iff (eid : Nat) (d : Date) (r : OverrideRow) :
    matchPair eid d r = true ↔ pairKey r = (eid, d) := by
  simp [matchPair, pairKey, Prod.ext_iff]

theorem matchPair_updOverride (eid' : Nat) (d' : Date) (eid : Nat) (d : Date)
    (n : String) (r : OverrideRow) :
    matchPair eid' d' (updOverride eid d n r) = matchPair eid' d' r := by
  cases hr : matchPair eid' d' r
  · cases hu : matchPair eid' d' (updOverride eid d n r)
    · rfl
    · rw [matchPair_iff, pairKey_updOverride, ← matchPair_iff, hr] at hu
      cases hu
  · rw [matchPair_iff, pairKey_updOverride, ← matchPair_iff, hr]

theorem hasPair_iff (ovs : List OverrideRow) (eid : Nat) (d : Date) :
    hasPair ovs eid d = true ↔ (eid, d) ∈ ovs.map pairKey := by
  unfold hasPair
  rw [List.any_eq_true]
  simp only [List.mem_map, matchPair_iff]

theorem map_pairKey_map_updOverride (eid : Nat) (d : Date) (n : String)
    (l : List OverrideRow) :
    (l.map (updOverride eid d n)).map pairKey = l.map pairKey := by
  rw [List.map_map]
  exact List.map_congr_left (fun r _ => pairKey_updOverride eid d n r)

/-! ### Invariants over reachable states -/

/-- The `UNIQUE(employee_id, work_date)` table constraint: the pair keys of
the override rows are pairwise distinct. -/
def UniquePairs (ovs : List OverrideRow) : Prop := (ovs.map pairKey).Nodup

/-- The foreign-key constraint: every override row references an existing
employee row. -/
def RefIntegrity (db : DB) : Prop :=
  ∀ r ∈ db.overrides, ∃ emp ∈ db.employees, emp.id = r.employee_id

theorem uniquePairs_filter (p : OverrideRow → Bool) {ovs : List OverrideRow}
    (h : UniquePairs ovs) : UniquePairs (ovs.filter p) := by
  exact List.Nodup.sublist (List.Sublist.map pairKey (List.filter_sublist ovs)) h

theorem reachable_uniquePairs (db : DB) (h : Reachable db) :
    UniquePairs db.overrides := by
  induction h with
  | init => simp [emptyDB, UniquePairs]
  | addEmp hr heq ih =>
    unfold addEmployee at heq
    split at heq
    · cases heq
    · cases heq
      exact ih
  | updActive eid flag hr ih => exact ih
  | setLib hr heq ih =>
    unfold setLibur1 at heq
    split at heq
    · cases heq
      unfold UniquePairs at ih ⊢
      rwa [map_pairKey_map_updOverride]
    · rename_i hnp
      split at heq
      · cases heq
        unfold UniquePairs at ih ⊢
        rw [List.map_append, List.nodup_append]
        refine ⟨ih, List.nodup_singleton _, ?_⟩
        intro k hk hk1
        rw [List.map_singleton, List.mem_singleton] at hk1
        subst hk1
        exact hnp ((hasPair_iff _ _ _).mpr hk)
      · cases heq
  | clearOvr eid d hr ih => exact uniquePairs_filter _ ih
  | delEmp eid hr ih => exact uniquePairs_filter _ ih

theorem reachable_refIntegrity (db : DB) (h : Reachable db) :
    RefIntegrity db := by
  induction h with
  | init => intro r hr; cases hr
  | addEmp hr heq ih =>
    unfold addEmployee at heq
    split at heq
    · cases heq
    · cases heq
      intro r hr
      obtain ⟨emp, hemp, hid⟩ := ih r hr
      exact ⟨emp, List.mem_append_left _ hemp, hid⟩
  | updActive eid flag hr ih =>
    intro r hr
    obtain ⟨emp, hemp, hid⟩ := ih r hr
    refine ⟨if emp.id = eid then { emp with is_active := flag } else emp, ?_, ?_⟩
    · exact List.mem_map_of_mem _ hemp
    · split <;> simpa using hid
  | setLib hr heq ih =>
    unfold setLibur1 at heq
    split at heq
    · cases heq
      intro r hr
      rw [List.mem_map] at hr
      obtain ⟨r0, hr0, rfl⟩ := hr
      obtain ⟨emp, hemp, hid⟩ := ih r0 hr0
      refine ⟨emp, hemp, ?_⟩
      rw [hid]
      unfold updOverride
      split <;> rfl
    · rename_i hnp
      split at heq
      · rename_i hex
        cases heq
        intro r hr
        rw [List.mem_append] at hr
        rcases hr with hr | hr
        · exact ih r hr
        · rw [List.mem_singleton] at hr
          subst hr
          unfold empExists at hex
          rw [List.any_eq_true] at hex
          obtain ⟨emp, hemp, hid⟩ := hex
          rw [decide_eq_true_eq] at hid
          exact ⟨emp, hemp, hid⟩
      · cases heq
  | clearOvr eid d hr ih =>
    intro r hr
    exact ih r (List.mem_of_mem_filter hr)
  | delEmp eid hr ih =>
    intro r hr
    unfold deleteEmployee at hr ⊢
    rw [List.mem_filter] at hr
    obtain ⟨hmem, hne⟩ := hr
    obtain ⟨emp, hemp, hid⟩ := ih r hmem
    refine ⟨emp, ?_, hid⟩
    rw [List.mem_filter]
    refine ⟨hemp, ?_⟩
    rw [Bool.not_eq_eq_eq_not, Bool.not_true, decide_eq_false_iff_not] at hne ⊢
    rw [hid]
    exact hne

/-! ### Upsert lemmas -/

theorem filter_matchPair_map_updOverride (eid : Nat) (d : Date) (n : String)
    (l : List OverrideRow) :
    (l.map (updOverride eid d n)).filter (matchPair eid d) =
      (l.filter (matchPair eid d)).map (updOverride eid d n) := by
  induction l with
  | nil => rfl
  | cons x xs ih =>
    simp only [List.map_cons, List.filter_cons, matchPair_updOverride]
    split
    · rw [List.map_cons, ih]
    · exact ih

theorem filter_matchPair_singleton {ovs : List OverrideRow} {eid : Nat} {d : Date}
    (hu : UniquePairs ovs) (hp : hasPair ovs eid d = true) :
    ∃ r, ovs.filter (matchPair eid d) = [r] ∧ matchPair eid d r = true := by
  induction ovs with
  | nil => cases hp
  | cons x xs ih =>
    unfold UniquePairs at hu
    rw [List.map_cons, List.nodup_cons] at hu
    by_cases hx : matchPair eid d x = true
    · refine ⟨x, ?_, hx⟩
      rw [List.filter_cons_of_pos hx]
      have hnil : xs.filter (matchPair eid d) = [] := by
        rw [List.filter_eq_nil_iff]
        intro r hr hc
        rw [matchPair_iff] at hc hx
        exact hu.1 (hx ▸ hc ▸ List.mem_map_of_mem pairKey hr)
      rw [hnil]
    · rw [List.filter_cons_of_neg (by simpa using hx)]
      refine ih hu.2 ?_
      unfold hasPair at hp ⊢
      rw [List.any_cons, Bool.or_eq_true] at hp
      rcases hp with hp | hp
      · exact absurd hp hx
      · exact hp

theorem updOverride_of_match {eid : Nat} {d : Date} (n : String) {r : OverrideRow}
    (h : matchPair eid d r = true) :
    updOverride eid d n r = { r with status := "LIBUR", notes := n } := by
  unfold updOverride
  rw [matchPair, decide_eq_true_eq] at h
  rw [if_pos h]

/-! ### The delete loop as a single filter -/

theorem clear_override_eq (eids : List Nat) (db : DB) (d : Date) :
    clear_override db eids d =
      { db with overrides :=
          db.overrides.filter (fun r => !(decide (r.employee_id ∈ eids ∧ r.work_date = d))) } := by
  induction eids generalizing db with
  | nil =>
    show db = _
    have hall : db.overrides.filter
        (fun r => !(decide (r.employee_id ∈ ([] : List Nat) ∧ r.work_date = d))) =
        db.overrides := by
      rw [List.filter_eq_self]
      intro r _
      simp
    rw [hall]
  | cons eid rest ih =>
    show clear_override (clearOverride1 db eid d) rest d = _
    rw [ih]
    simp only [clearOverride1]
    rw [List.filter_filter]
    congr 1
    apply List.filter_congr
    intro r _
    by_cases h1 : r.employee_id = eid <;> by_cases h2 : r.work_date = d <;>
      by_cases h3 : r.employee_id ∈ rest <;>
      simp [matchPair, h1, h2, h3]

/-! ### Report membership lemmas -/

theorem mem_get_active_employees {db : DB} {emp : Employee} :
    emp ∈ get_active_employees db ↔ emp ∈ db.employees ∧ emp.is_active = 1 := by
  unfold get_active_employees
  rw [mem_sortByKey, List.mem_filter, decide_eq_true_eq]

theorem mem_build_report {db : DB} {s e : Date} {row : ReportRow} :
    row ∈ build_report db s e ↔
      ∃ emp ∈ get_active_employees db, row = mkRow db s e emp := by
  unfold build_report
  by_cases hemp : (get_active_employees db).isEmpty
  · rw [if_pos hemp]
    rw [List.isEmpty_iff] at hemp
    simp [hemp]
  · rw [if_neg hemp]
    rw [mem_sortByKey, List.mem_map]
    constructor
    · rintro ⟨emp, hm, rfl⟩
      exact ⟨emp, hm, rfl⟩
    · rintro ⟨emp, hm, rfl⟩
      exact ⟨emp, hm, rfl⟩

theorem mkRow_full_name (db : DB) (s e : Date) (emp : Employee) :
    (mkRow db s e emp).full_name = emp.full_name := rfl

theorem mkRow_employee_code (db : DB) (s e : Date) (emp : Employee) :
    (mkRow db s e emp).employee_code = emp.employee_code := rfl

theorem mkRow_total_days (db : DB) (s e : Date) (emp : Employee) :
    (mkRow db s e emp).total_days = totalDays s e := rfl

theorem mkRow_masuk_days (db : DB) (s e : Date) (emp : Employee) :
    (mkRow db s e emp).masuk_days =
      totalDays s e - ((mkRow db s e emp).libur_days : Int) := rfl

/-! ### Helper lemmas for employee insertion -/

theorem addEmployee_ok_iff (db : DB) (name : String) (code : Option String) (now : String) :
    (∃ db1, addEmployee db name code now = .ok db1) ↔
      ¬(∃ c, code = some c ∧ codeInUse db c = true) := by
  unfold addEmployee
  cases code with
  | none => simp
  | some c =>
    by_cases huse : codeInUse db c = true
    · simp [huse]
    · simp [huse]

theorem addEmployee_error_msg (db : DB) (name : String) (code : Option String)
    (now msg : String) (h : addEmployee db name code now = .error msg) :
    msg = "UNIQUE constraint failed: employees.employee_code" := by
  unfold addEmployee at h
  split at h
  · cases h
    rfl
  · cases h

/-! ### Claim theorems -/

/-- C1: for every database state and every date range with start ≤ end,
every report row satisfies `present_days + absent_days = total_days` with
`total_days = (end − start) + 1` counted inclusively; and over the range
2024-01-01..2024-01-31 an active employee with exactly 2 overrides in range
gets `present_days = 29` and `absent_days = 2`. -/
theorem report_present_plus_absent (db : DB) (s e : Date) :
    (dateLe s e = true →
      ∀ row ∈ build_report db s e,
        row.masuk_days + (row.libur_days : Int) = row.total_days ∧
        row.total_days = totalDays s e) ∧
    (∀ emp ∈ get_active_employees db,
      countOverridesInRange db.overrides emp.id ⟨2024, 1, 1⟩ ⟨2024, 1, 31⟩ = 2 →
      ∃ row ∈ build_report db ⟨2024, 1, 1⟩ ⟨2024, 1, 31⟩,
        row.full_name = emp.full_name ∧ row.masuk_days = 29 ∧
        row.libur_days = 2 ∧ row.total_days = 31) := by
  constructor
  · intro _ row hrow
    obtain ⟨emp, _, rfl⟩ := mem_build_report.mp hrow
    refine ⟨?_, rfl⟩
    rw [mkRow_masuk_days, mkRow_total_days]
    omega
  · intro emp hemp hcount
    have hlib : (mkRow db ⟨2024, 1, 1⟩ ⟨2024, 1, 31⟩ emp).libur_days = 2 := by
      rw [libur_eq_count, hcount]
    refine ⟨mkRow db ⟨2024, 1, 1⟩ ⟨2024, 1, 31⟩ emp,
      mem_build_report.mpr ⟨emp, hemp, rfl⟩, rfl, ?_, hlib, ?_⟩
    · rw [mkRow_masuk_days, hlib]
      decide
    · rw [mkRow_total_days]
      decide

/-- C2: every report row belongs to an active employee and its absent-day
count equals the number of that employee's override rows with work date in
the inclusive range; with zero overrides in range the row shows
`absent_days = 0` and `present_days = total_days`. -/
theorem report_absent_eq_override_count (db : DB) (s e : Date) (row : ReportRow)
    (hrow : row ∈ build_report db s e) :
    ∃ emp ∈ get_active_employees db, row = mkRow db s e emp ∧
      row.libur_days = countOverridesInRange db.overrides emp.id s e ∧
      (countOverridesInRange db.overrides emp.id s e = 0 →
        row.libur_days = 0 ∧ row.masuk_days = totalDays s e) := by
  obtain ⟨emp, hemp, rfl⟩ := mem_build_report.mp hrow
  refine ⟨emp, hemp, rfl, libur_eq_count db s e emp, ?_⟩
  intro h0
  have hl := libur_eq_count db s e emp
  rw [h0] at hl
  refine ⟨hl, ?_⟩
  rw [mkRow_masuk_days, hl]
  simp

/-- C3: every reachable database state has at most one override row per
`(employee, date)` pair, and two consecutive `set_libur` writes to the same
pair leave exactly one override row for it, carrying the second call's
note. -/
theorem override_pair_unique :
    (∀ db : DB, Reachable db → UniquePairs db.overrides) ∧
    (∀ (db db1 db2 : DB) (eid : Nat) (d : Date) (n1 n2 t1 t2 : String),
      UniquePairs db.overrides →
      setLibur1 db eid d n1 t1 = .ok db1 →
      setLibur1 db1 eid d n2 t2 = .ok db2 →
      ∃ r, db2.overrides.filter (matchPair eid d) = [r] ∧
        r.notes = n2 ∧ r.status = "LIBUR") := by
  refine ⟨reachable_uniquePairs, ?_⟩
  intro db db1 db2 eid d n1 n2 t1 t2 hu h1 h2
  have hstep : ∃ x, db1.overrides.filter (matchPair eid d) = [x] ∧
      matchPair eid d x = true := by
    unfold setLibur1 at h1
    split at h1
    · rename_i hp
      cases h1
      obtain ⟨r, hr, hm⟩ := filter_matchPair_singleton hu hp
      refine ⟨updOverride eid d n1 r, ?_, ?_⟩
      · dsimp only
        rw [filter_matchPair_map_updOverride, hr]
        rfl
      · rw [matchPair_updOverride]
        exact hm
    · rename_i hp
      split at h1
      · cases h1
        have h0 : db.overrides.filter (matchPair eid d) = [] := by
          rw [List.filter_eq_nil_iff]
          intro r hr hc
          refine hp ?_
          unfold hasPair
          rw [List.any_eq_true]
          exact ⟨r, hr, hc⟩
        refine ⟨{ id := db.ovr_seq + 1, employee_id := eid, work_date := d,
                  status := "LIBUR", notes := n1, created_at := t1 }, ?_, ?_⟩
        · dsimp only
          rw [List.filter_append, h0]
          simp [matchPair]
        · simp [matchPair]
      · cases h1
  obtain ⟨x, hx, hmx⟩ := hstep
  unfold setLibur1 at h2
  split at h2
  · cases h2
    refine ⟨updOverride eid d n2 x, ?_, ?_, ?_⟩
    · dsimp only
      rw [filter_matchPair_map_updOverride, hx]
      rfl
    · rw [updOverride_of_match n2 hmx]
    · rw [updOverride_of_match n2 hmx]
  · rename_i hp2
    exfalso
    refine hp2 ?_
    have hxmem : x ∈ db1.overrides := by
      refine List.mem_of_mem_filter (p := matchPair eid d) ?_
      rw [hx]
      exact List.mem_singleton_self x
    unfold hasPair
    rw [List.any_eq_true]
    exact ⟨x, hxmem, hmx⟩

/-- C4: `clear_override` never touches the employee table or the sequence
counters, removes exactly the override rows whose `(employee, date)` pair is
targeted, and is a complete no-op (no error, full state unchanged) when no
targeted pair has a row. -/
theorem clear_override_noop_or_delete (db : DB) (eids : List Nat) (d : Date) :
    (clear_override db eids d).employees = db.employees ∧
    (clear_override db eids d).emp_seq = db.emp_seq ∧
    (clear_override db eids d).ovr_seq = db.ovr_seq ∧
    (clear_override db eids d).overrides =
      db.overrides.filter (fun r => !(decide (r.employee_id ∈ eids ∧ r.work_date = d))) ∧
    ((∀ r ∈ db.overrides, ¬(r.employee_id ∈ eids ∧ r.work_date = d)) →
      clear_override db eids d = db) := by
  rw [clear_override_eq]
  refine ⟨rfl, rfl, rfl, rfl, ?_⟩
  intro hnone
  have hall : db.overrides.filter
      (fun r => !(decide (r.employee_id ∈ eids ∧ r.work_date = d))) = db.overrides := by
    rw [List.filter_eq_self]
    intro r hr
    simp only [Bool.not_eq_true', decide_eq_false_iff_not]
    exact hnone r hr
  rw [hall]

/-- C5: every report row comes from an employee whose `is_active` flag is 1,
and setting an employee inactive removes it from the active-employee list
feeding `build_report` while leaving the override table untouched. -/
theorem deactivate_excludes_from_report :
    (∀ (db : DB) (s e : Date), ∀ row ∈ build_report db s e,
      ∃ emp ∈ db.employees, emp.is_active = 1 ∧ row = mkRow db s e emp) ∧
    (∀ (db : DB) (eid : Nat),
      (∀ emp ∈ get_active_employees (setActive db eid 0), emp.id ≠ eid) ∧
      (setActive db eid 0).overrides = db.overrides) := by
  constructor
  · intro db s e row hrow
    obtain ⟨emp, hemp, rfl⟩ := mem_build_report.mp hrow
    rw [mem_get_active_employees] at hemp
    exact ⟨emp, hemp.1, hemp.2, rfl⟩
  · intro db eid
    refine ⟨?_, rfl⟩
    intro emp hemp
    rw [mem_get_active_employees] at hemp
    obtain ⟨hmem, hact⟩ := hemp
    simp only [setActive] at hmem
    rw [List.mem_map] at hmem
    obtain ⟨x, hx, hxe⟩ := hmem
    intro hid
    by_cases hcase : x.id = eid
    · rw [if_pos hcase] at hxe
      rw [← hxe] at hact
      simp at hact
    · rw [if_neg hcase] at hxe
      rw [← hxe] at hid
      exact hcase hid

/-- C6: the report rows are sorted ascending by full name, and an empty
active-employee set yields an empty report. -/
theorem report_sorted_by_name (db : DB) (s e : Date) :
    (build_report db s e).Pairwise (fun a b => a.full_name ≤ b.full_name) ∧
    (get_active_employees db = [] → build_report db s e = []) := by
  constructor
  · unfold build_report
    split
    · exact List.Pairwise.nil
    · exact pairwise_sortByKey _ _
  · intro hnil
    unfold build_report
    rw [hnil]
    rfl

/-- C7: inserting an employee fails, with the uniqueness-constraint message
as the only error class, exactly when a code is provided (`some c`; the UI
maps a blank input to `none` via `codeOfInput`) that is already in use; in
every other case (including no code) it succeeds. -/
theorem add_employee_error_iff_code_in_use (db : DB) (name now : String)
    (code : Option String) :
    ((∃ db1, addEmployee db name code now = .ok db1) ↔
      ¬(∃ c, code = some c ∧ codeInUse db c = true)) ∧
    (∀ msg, addEmployee db name code now = .error msg →
      msg = "UNIQUE constraint failed: employees.employee_code") :=
  ⟨addEmployee_ok_iff db name code now,
   fun msg h => addEmployee_error_msg db name code now msg h⟩

/-- C8: for `1 ≤ month ≤ 12`, `month_range` returns the first and last
calendar day of the month (rolling the year for December), and `year_range`
returns January 1 and December 31. -/
theorem month_year_range_bounds (year month : Nat) (h1 : 1 ≤ month) (h2 : month ≤ 12) :
    month_range year month = (⟨year, month, 1⟩, ⟨year, month, daysInMonth year month⟩) ∧
    year_range year = (⟨year, 1, 1⟩, ⟨year, 12, 31⟩) := by
  refine ⟨?_, rfl⟩
  interval_cases month <;>
    simp [month_range, predDate, daysInMonth]

/-- C9: deleting an employee removes, by cascade, exactly the override rows
referencing it, and in every reachable state every override row references
an existing employee. -/
theorem delete_employee_cascades :
    (∀ (db : DB) (eid : Nat),
      (deleteEmployee db eid).overrides =
        db.overrides.filter (fun r => !(decide (r.employee_id = eid))) ∧
      (∀ r ∈ (deleteEmployee db eid).overrides, r.employee_id ≠ eid)) ∧
    (∀ db : DB, Reachable db → RefIntegrity db) := by
  refine ⟨?_, reachable_refIntegrity⟩
  intro db eid
  refine ⟨rfl, ?_⟩
  intro r hr
  unfold deleteEmployee at hr
  rw [List.mem_filter] at hr
  simpa using hr.2

/-- C10: upserting onto an existing `(employee, date)` pair takes the
conflict path: every row is rewritten only in its `status` and `notes`
columns, so the matching row keeps its original `id` and `created_at`, and
the sequence counter does not advance. -/
theorem upsert_preserves_id_created_at (db : DB) (eid : Nat) (d : Date) (n t : String)
    (r : OverrideRow) (hmem : r ∈ db.overrides) (hid : r.employee_id = eid)
    (hdate : r.work_date = d) :
    ∃ db1, setLibur1 db eid d n t = .ok db1 ∧
      db1.employees = db.employees ∧ db1.ovr_seq = db.ovr_seq ∧
      db1.overrides = db.overrides.map (updOverride eid d n) ∧
      (∀ x : OverrideRow, (updOverride eid d n x).id = x.id ∧
        (updOverride eid d n x).created_at = x.created_at ∧
        (updOverride eid d n x).employee_id = x.employee_id ∧
        (updOverride eid d n x).work_date = x.work_date) ∧
      updOverride eid d n r = { r with status := "LIBUR", notes := n } := by
  have hp : hasPair db.overrides eid d = true := by
    unfold hasPair
    rw [List.any_eq_true]
    refine ⟨r, hmem, ?_⟩
    rw [matchPair, decide_eq_true_eq]
    exact ⟨hid, hdate⟩
  refine ⟨{ db with overrides := db.overrides.map (updOverride eid d n) },
    ?_, rfl, rfl, rfl, ?_, ?_⟩
  · unfold setLibur1
    rw [if_pos hp]
  · intro x
    unfold updOverride
    split <;> exact ⟨rfl, rfl, rfl, rfl⟩
  · refine updOverride_of_match n ?_
    rw [matchPair, decide_eq_true_eq]
    exact ⟨hid, hdate⟩

/-! ### Concrete witness states -/

/-- A single registered employee. -/
def empA : Employee :=
  { id := 1, full_name := "A", employee_code := none, is_active := 1, created_at := "t0" }

/-- The state after registering `empA` in a fresh database. -/
def dbW0 : DB := { employees := [empA], overrides := [], emp_seq := 1, ovr_seq := 0 }

/-- A sample work date. -/
def dW : Date := ⟨2024, 1, 5⟩

/-- The override row inserted by the first `set_libur` on `(empA, dW)`. -/
def rowA : OverrideRow :=
  { id := 1, employee_id := 1, work_date := dW, status := "LIBUR", notes := "n1",
    created_at := "t1" }

/-- The state after that first `set_libur`. -/
def dbW1 : DB := { employees := [empA], overrides := [rowA], emp_seq := 1, ovr_seq := 1 }

/-- The state after a second `set_libur` on the same pair with note `n2`. -/
def dbW2 : DB :=
  { employees := [empA], overrides := [{ rowA with notes := "n2" }], emp_seq := 1,
    ovr_seq := 1 }

theorem reachable_dbW0 : Reachable dbW0 :=
  @Reachable.addEmp emptyDB dbW0 "A" "t0" none Reachable.init rfl

/-- A state with one active employee and two January-2024 overrides. -/
def dbC1 : DB :=
  { employees := [empA],
    overrides :=
      [{ id := 1, employee_id := 1, work_date := ⟨2024, 1, 5⟩, status := "LIBUR",
         notes := "", created_at := "t1" },
       { id := 2, employee_id := 1, work_date := ⟨2024, 1, 9⟩, status := "LIBUR",
         notes := "", created_at := "t1" }],
    emp_seq := 1, ovr_seq := 2 }

/-- The report row `build_report` produces for `empA` over January 2024 in
state `dbC1`. -/
def rowC1 : ReportRow :=
  { full_name := "A", employee_code := none, total_days := 31, masuk_days := 29,
    libur_days := 2 }

/-! ### Witnesses -/

/-- Witness for C1 at `dbC1` over January 2024. -/
theorem report_present_plus_absent_witness :
    ∃ row ∈ build_report dbC1 ⟨2024, 1, 1⟩ ⟨2024, 1, 31⟩,
      row.full_name = empA.full_name ∧ row.masuk_days = 29 ∧
      row.libur_days = 2 ∧ row.total_days = 31 :=
  (report_present_plus_absent dbC1 ⟨2024, 1, 1⟩ ⟨2024, 1, 31⟩).2 empA
    (by decide) (by decide)

/-- Witness for C2 at `dbC1` over January 2024. -/
theorem report_absent_eq_override_count_witness :
    ∃ emp ∈ get_active_employees dbC1,
      rowC1 = mkRow dbC1 ⟨2024, 1, 1⟩ ⟨2024, 1, 31⟩ emp ∧
      rowC1.libur_days =
        countOverridesInRange dbC1.overrides emp.id ⟨2024, 1, 1⟩ ⟨2024, 1, 31⟩ ∧
      (countOverridesInRange dbC1.overrides emp.id ⟨2024, 1, 1⟩ ⟨2024, 1, 31⟩ = 0 →
        rowC1.libur_days = 0 ∧ rowC1.masuk_days = totalDays ⟨2024, 1, 1⟩ ⟨2024, 1, 31⟩) :=
  report_absent_eq_override_count dbC1 ⟨2024, 1, 1⟩ ⟨2024, 1, 31⟩ rowC1 (by decide)

/-- Witness for C3: a reachable one-employee state, and a double `set_libur`
on the same pair. -/
theorem override_pair_unique_witness :
    UniquePairs dbW0.overrides ∧
    (∃ r, dbW2.overrides.filter (matchPair 1 dW) = [r] ∧
      r.notes = "n2" ∧ r.status = "LIBUR") :=
  ⟨override_pair_unique.1 dbW0 reachable_dbW0,
   override_pair_unique.2 dbW0 dbW1 dbW2 1 dW "n1" "n2" "t1" "t2"
     (by unfold UniquePairs; decide) rfl rfl⟩

/-- Witness for C4: clearing a pair with no override row is a no-op. -/
theorem clear_override_noop_or_delete_witness :
    clear_override dbC1 [2] ⟨2024, 1, 5⟩ = dbC1 :=
  (clear_override_noop_or_delete dbC1 [2] ⟨2024, 1, 5⟩).2.2.2.2 (by decide)

/-- Witness for C5 at `dbC1`. -/
theorem deactivate_excludes_from_report_witness :
    (∃ emp ∈ dbC1.employees, emp.is_active = 1 ∧
      rowC1 = mkRow dbC1 ⟨2024, 1, 1⟩ ⟨2024, 1, 31⟩ emp) ∧
    (setActive dbC1 1 0).overrides = dbC1.overrides :=
  ⟨deactivate_excludes_from_report.1 dbC1 ⟨2024, 1, 1⟩ ⟨2024, 1, 31⟩ rowC1 (by decide),
   (deactivate_excludes_from_report.2 dbC1 1).2⟩

/-- Witness for C6: the empty database yields an empty, trivially sorted
report. -/
theorem report_sorted_by_name_witness :
    (build_report emptyDB dW dW).Pairwise (fun a b => a.full_name ≤ b.full_name) ∧
    build_report emptyDB dW dW = [] :=
  ⟨(report_sorted_by_name emptyDB dW dW).1, (report_sorted_by_name emptyDB dW dW).2 rfl⟩

/-- Witness for C7: inserting with a fresh non-empty code succeeds. -/
theorem add_employee_error_iff_code_in_use_witness :
    ∃ db1, addEmployee dbC1 "B" (some "c1") "t5" = .ok db1 :=
  (add_employee_error_iff_code_in_use dbC1 "B" "t5" (some "c1")).1.mpr
    (by rintro ⟨c, hc, huse⟩; cases hc; exact absurd huse (by decide))

/-- Witness for C8 at February 2024. -/
theorem month_year_range_bounds_witness :
    month_range 2024 2 = (⟨2024, 2, 1⟩, ⟨2024, 2, daysInMonth 2024 2⟩) ∧
    year_range 2024 = (⟨2024, 1, 1⟩, ⟨2024, 12, 31⟩) :=
  month_year_range_bounds 2024 2 (by decide) (by decide)

/-- Witness for C9 at `dbC1` and the reachable state `dbW0`. -/
theorem delete_employee_cascades_witness :
    ((deleteEmployee dbC1 1).overrides =
      dbC1.overrides.filter (fun r => !(decide (r.employee_id = 1))) ∧
      (∀ r ∈ (deleteEmployee dbC1 1).overrides, r.employee_id ≠ 1)) ∧
    RefIntegrity dbW0 :=
  ⟨delete_employee_cascades.1 dbC1 1, delete_employee_cascades.2 dbW0 reachable_dbW0⟩

/-- Witness for C10: a second write onto `(empA, dW)` in `dbW1`. -/
theorem upsert_preserves_id_created_at_witness :
    ∃ db1, setLibur1 dbW1 1 dW "nn" "t9" = .ok db1 ∧
      db1.employees = dbW1.employees ∧ db1.ovr_seq = dbW1.ovr_seq ∧
      db1.overrides = dbW1.overrides.map (updOverride 1 dW "nn") ∧
      (∀ x : OverrideRow, (updOverride 1 dW "nn" x).id = x.id ∧
        (updOverride 1 dW "nn" x).created_at = x.created_at ∧
        (updOverride 1 dW "nn" x).employee_id = x.employee_id ∧
        (updOverride 1 dW "nn" x).work_date = x.work_date) ∧
      updOverride 1 dW "nn" rowA = { rowA with status := "LIBUR", notes := "nn" } :=
  upsert_preserves_id_created_at dbW1 1 dW "nn" "t9" rowA (by decide) rfl rfl
